import Mathlib

/-!
# Verification of `osmtools` (`src/main.rs`)

A shallow embedding of the relation-extraction pipeline: the OSM data
model (`OsmId`, `OsmObj`, tag maps), the two tag predicates
(`filter_all_relations`, `filter_target_relations`), the dependency-closing
loader (`load_relations`, whose closure engine `get_objs_and_deps` lives in
the external `osmpbfreader` crate and is modelled from the spec), the stats
aggregator (`to_stats`) and the JSONL emitter (`to_jsonl`, including the
buffered-writer semantics of Rust's `BufWriter`, which flushes on drop with
errors ignored).

The PBF wire format is abstracted: an input source is the decoded sequence
of OSM objects (`List OsmObj`), exactly the "decode PBF → stream of OSM
objects" capability the design treats as supplied.
-/

namespace OsmTools

/-- Tag maps: string-to-string mapping, modelled as an association list
(first match wins on lookup, mirroring a map with unique keys). -/
def Tags := List (String × String)

instance : DecidableEq Tags :=
  inferInstanceAs (DecidableEq (List (String × String)))

/-- `Tags::get`: lookup returning an optional value. -/
def Tags.get (t : Tags) (k : String) : Option String :=
  (List.find? (fun p => p.1 == k) t).map (fun p => p.2)

/-- `Tags::contains_key`. -/
def Tags.containsKey (t : Tags) (k : String) : Bool :=
  (t.get k).isSome

/-- `OsmId`: discriminated identifier over Node/Way/Relation, each carrying
a 64-bit integer (modelled as `Int`; no arithmetic is performed on ids). -/
inductive OsmId where
  | node : Int → OsmId
  | way : Int → OsmId
  | rel : Int → OsmId
deriving DecidableEq, Repr

/-- Variant index used by the derived `Ord` on the Rust enum
(`Node < Way < Relation`). -/
def OsmId.variant : OsmId → Nat
  | .node _ => 0
  | .way _ => 1
  | .rel _ => 2

/-- The integer payload of an id. -/
def OsmId.num : OsmId → Int
  | .node i => i
  | .way i => i
  | .rel i => i

/-- Strict order on `OsmId`: by variant, then by integer (the derived
`Ord` of the Rust enum, which keys the `BTreeMap`). -/
def OsmId.ltB (a b : OsmId) : Bool :=
  a.variant < b.variant || (a.variant == b.variant && decide (a.num < b.num))

/-- Non-strict order on `OsmId`. -/
def OsmId.leB (a b : OsmId) : Bool :=
  a.variant < b.variant || (a.variant == b.variant && decide (a.num ≤ b.num))

/-- A relation member reference: target id plus role string. -/
structure Ref where
  member : OsmId
  role : String
deriving DecidableEq, Repr

/-- An OSM node (coordinates are irrelevant to this program and omitted). -/
structure Node where
  id : Int
  tags : Tags
deriving DecidableEq

/-- An OSM way: tags plus the ordered list of node ids it references. -/
structure Way where
  id : Int
  tags : Tags
  nodes : List Int
deriving DecidableEq

/-- An OSM relation: tags plus the ordered member references. -/
structure Relation where
  id : Int
  tags : Tags
  refs : List Ref
deriving DecidableEq

/-- `OsmObj`: tagged union over the three object kinds. -/
inductive OsmObj where
  | node : Node → OsmObj
  | way : Way → OsmObj
  | rel : Relation → OsmObj
deriving DecidableEq

/-- `OsmObj::tags()`. -/
def OsmObj.tags : OsmObj → Tags
  | .node n => n.tags
  | .way w => w.tags
  | .rel r => r.tags

/-- `OsmObj::id()`. -/
def OsmObj.id : OsmObj → OsmId
  | .node n => .node n.id
  | .way w => .way w.id
  | .rel r => .rel r.id

/-- `OsmObj::is_relation()`. -/
def OsmObj.is_relation : OsmObj → Bool
  | .rel _ => true
  | _ => false

/-- `TARGET_BOUNDARY_TYPES`: the boundary-tag allowlist. -/
def TARGET_BOUNDARY_TYPES : List String :=
  ["administrative", "state_border", "country_border", "state border"]

/-- `filter_all_relations`: object is a relation, has a "name" tag, and has
an "admin_level" tag matching `"2" | "4" | "6" | "7" | "8"`. -/
def filter_all_relations (obj : OsmObj) : Bool :=
  obj.is_relation && obj.tags.containsKey "name" &&
    (match obj.tags.get "admin_level" with
     | none => false
     | some admin_level =>
         admin_level == "2" || admin_level == "4" || admin_level == "6" ||
         admin_level == "7" || admin_level == "8")

/-- `filter_target_relations`: `filter_all_relations` plus a "boundary" tag
drawn from `TARGET_BOUNDARY_TYPES`. -/
def filter_target_relations (obj : OsmObj) : Bool :=
  filter_all_relations obj &&
    (match obj.tags.get "boundary" with
     | none => false
     | some boundary => TARGET_BOUNDARY_TYPES.contains boundary)

/-! ## Sorting infrastructure

A structurally recursive insertion sort, so concrete runs reduce inside
`decide`/`rfl`. Used to model the key-ordered iteration of `BTreeMap`
(for `load_relations`) and `itertools::sorted_by` (for `to_stats`). -/

/-- Insert `x` into `l` before the first element `y` with `le x y`. -/
def insertBy (le : α → α → Bool) (x : α) : List α → List α
  | [] => [x]
  | y :: ys => if le x y then x :: y :: ys else y :: insertBy le x ys

/-- Insertion sort with comparator `le`. -/
def sortBy (le : α → α → Bool) : List α → List α
  | [] => []
  | x :: xs => insertBy le x (sortBy le xs)

theorem insertBy_perm (le : α → α → Bool) (x : α) (l : List α) :
    List.Perm (insertBy le x l) (x :: l) := by
  induction l with
  | nil => simp [insertBy]
  | cons y ys ih =>
      simp only [insertBy]
      by_cases h : le x y
      · simp [h]
      · simp only [h, if_neg]
        exact (List.Perm.cons y ih).trans (List.Perm.swap x y ys)

theorem sortBy_perm (le : α → α → Bool) (l : List α) :
    List.Perm (sortBy le l) l := by
  induction l with
  | nil => simp [sortBy]
  | cons x xs ih =>
      exact ((insertBy_perm le x (sortBy le xs)).trans (List.Perm.cons x ih))

theorem insertBy_pairwise (le : α → α → Bool)
    (htrans : ∀ a b c, le a b = true → le b c = true → le a c = true)
    (htotal : ∀ a b, le a b = true ∨ le b a = true) (x : α) (l : List α)
    (h : List.Pairwise (fun a b => le a b = true) l) :
    List.Pairwise (fun a b => le a b = true) (insertBy le x l) := by
  induction l with
  | nil => simp [insertBy]
  | cons y ys ih =>
      rcases List.pairwise_cons.mp h with ⟨hy, hys⟩
      simp only [insertBy]
      by_cases hxy : le x y = true
      · simp only [hxy, if_pos]
        refine List.pairwise_cons.mpr ⟨?_, h⟩
        intro z hz
        rcases List.mem_cons.mp hz with hz | hz
        · exact hz ▸ hxy
        · exact htrans x y z hxy (hy z hz)
      · simp only [hxy, if_neg, Bool.false_eq_true, not_false_eq_true]
        refine List.pairwise_cons.mpr ⟨?_, ih hys⟩
        intro z hz
        have hz' := (insertBy_perm le x ys).mem_iff.mp hz
        rcases List.mem_cons.mp hz' with hz' | hz'
        · rw [hz']
          rcases htotal x y with hx | hx
          · exact absurd hx hxy
          · exact hx
        · exact hy z hz'

theorem sortBy_pairwise (le : α → α → Bool)
    (htrans : ∀ a b c, le a b = true → le b c = true → le a c = true)
    (htotal : ∀ a b, le a b = true ∨ le b a = true) (l : List α) :
    List.Pairwise (fun a b => le a b = true) (sortBy le l) := by
  induction l with
  | nil => simp [sortBy]
  | cons x xs ih => exact insertBy_pairwise le htrans htotal x (sortBy le xs) ih

/-! ## Order facts about `OsmId` -/

theorem OsmId.leB_trans (a b c : OsmId) (h1 : OsmId.leB a b = true)
    (h2 : OsmId.leB b c = true) : OsmId.leB a c = true := by
  simp only [OsmId.leB, Bool.or_eq_true, Bool.and_eq_true, beq_iff_eq,
    decide_eq_true_eq] at *
  omega

theorem OsmId.leB_total (a b : OsmId) :
    OsmId.leB a b = true ∨ OsmId.leB b a = true := by
  simp only [OsmId.leB, Bool.or_eq_true, Bool.and_eq_true, beq_iff_eq,
    decide_eq_true_eq]
  omega

theorem OsmId.eq_of_variant_num (a b : OsmId) (hv : a.variant = b.variant)
    (hn : a.num = b.num) : a = b := by
  cases a <;> cases b <;> simp_all [OsmId.variant, OsmId.num]

theorem OsmId.ltB_of_leB_of_ne (a b : OsmId) (h : OsmId.leB a b = true)
    (hne : a ≠ b) : OsmId.ltB a b = true := by
  simp only [OsmId.leB, Bool.or_eq_true, Bool.and_eq_true, beq_iff_eq,
    decide_eq_true_eq] at h
  simp only [OsmId.ltB, Bool.or_eq_true, Bool.and_eq_true, beq_iff_eq,
    decide_eq_true_eq]
  rcases h with h | ⟨hv, hn⟩
  · exact Or.inl h
  · refine Or.inr ⟨hv, lt_of_le_of_ne hn ?_⟩
    intro hq
    exact hne (OsmId.eq_of_variant_num a b hv hq)

/-! ## Dependency-closing loader

`load_relations` (src/main.rs:84-92) opens the file and delegates the
closure to `osmpbfreader::OsmPbfReader::get_objs_and_deps`, which is not
part of this repository. Its behaviour is modelled from the spec. -/

/-- Modelled from the spec: the direct member references an object
contributes to the closure — for relations all member ids regardless of
role, for ways their node ids, for nodes nothing (spec section 4.2). -/
def memberIds : OsmObj → List OsmId
  | .node _ => []
  | .way w => w.nodes.map OsmId.node
  | .rel r => r.refs.map Ref.member

/-- First object in the source stream carrying the given id. -/
def findObj (src : List OsmObj) (i : OsmId) : Option OsmObj :=
  src.find? (fun o => o.id == i)

/-- Modelled from the spec: one closure-expansion step — add the direct
member references of every already-reached id that resolves in the
source. -/
def expandIds (src : List OsmObj) (ids : List OsmId) : List OsmId :=
  (ids ++ ids.flatMap (fun i => ((findObj src i).map memberIds).getD [])).dedup

/-- Iterations sufficient to reach the closure fixpoint: every distinct
reachable id is a source object id or one of its member references. -/
def closureFuel (src : List OsmObj) : Nat :=
  src.length + (src.map (fun o => (memberIds o).length)).sum + 1

/-- Modelled from the spec (`get_objs_and_deps` of the external
`osmpbfreader` crate): ids of objects matching the predicate (the roots)
together with everything transitively reachable via member references;
ids that never resolve in the source stay in this id set but contribute
no object (dangling references are silently omitted). -/
def closureIds (src : List OsmObj) (pred : OsmObj → Bool) : List OsmId :=
  (expandIds src)^[closureFuel src] ((src.filter pred).map OsmObj.id)

/-- Keep the first entry for each key not yet in `seen`, drop later
duplicates. -/
def dedupByKeyAux (seen : List OsmId) :
    List (OsmId × OsmObj) → List (OsmId × OsmObj)
  | [] => []
  | e :: rest =>
      if e.1 ∈ seen then dedupByKeyAux seen rest
      else e :: dedupByKeyAux (e.1 :: seen) rest

/-- Keep the first entry for each key, drop later duplicates (the spec's
"duplicate insertions are idempotent — first write wins"). -/
def dedupByKey (l : List (OsmId × OsmObj)) : List (OsmId × OsmObj) :=
  dedupByKeyAux [] l

/-- Comparator on map entries: by key, in `OsmId` order. -/
def keyLe (a b : OsmId × OsmObj) : Bool := OsmId.leB a.1 b.1

/-- `load_relations` (src/main.rs:84-92): build the dependency closure for
`pred` and return it as a `BTreeMap` iterated in key order — modelled as
the deduplicated entry list sorted by `OsmId` order. The underlying
closure engine is modelled from the spec (see `closureIds`). -/
def load_relations (src : List OsmObj) (pred : OsmObj → Bool) :
    List (OsmId × OsmObj) :=
  sortBy keyLe (dedupByKey
    ((src.filter (fun o => (closureIds src pred).contains o.id)).map
      (fun o => (o.id, o))))

/-! ## Stats aggregator (`to_stats`, src/main.rs:94-110) -/

/-- One `*boundary_types.entry(boundary).or_default() += 1` step on the
tally, modelled on an association list. -/
def bump : List (String × Nat) → String → List (String × Nat)
  | [], b => [(b, 1)]
  | (k, n) :: rest, b =>
      if k == b then (k, n + 1) :: rest else (k, n) :: bump rest b

/-- The iterator feeding the tally: values of the map (in key order),
kept if `filter_all_relations`, then `filter_map`ped to their "boundary"
tag value — entries lacking the tag are dropped. -/
def boundaryValues (relations : List (OsmId × OsmObj)) : List String :=
  ((relations.map Prod.snd).filter filter_all_relations).filterMap
    (fun obj => Tags.get obj.tags "boundary")

/-- The `boundary_types` hash map of `to_stats`, as an association list in
first-appearance order (the hash map's own iteration order is arbitrary;
`to_stats` sorts before printing). -/
def statsTally (relations : List (OsmId × OsmObj)) : List (String × Nat) :=
  (boundaryValues relations).foldl bump []

/-- `sorted_by (Ord cmp (b.1) (a.1))` on (value, count) pairs: count
descending. -/
def countGe (a b : String × Nat) : Bool := decide (b.2 ≤ a.2)

/-- `to_stats` (src/main.rs:94-110): the lines written, in order — one
`"<boundary_type> <count>"` line per tally entry, sorted by count
descending. -/
def to_stats (relations : List (OsmId × OsmObj)) : List String :=
  (sortBy countGe (statsTally relations)).map
    (fun e => e.1 ++ " " ++ toString e.2)

/-! ## Sinks and the buffered writer

A sink models an `impl io::Write`: it either accepts every write or fails
every write (enough to express error-propagation behaviour). `BufWriter`
follows Rust std semantics: writes below the buffer capacity are only
buffered; dropping the writer attempts a flush and IGNORES any error
(documented behaviour of `BufWriter`'s `Drop` impl). -/

/-- An output sink: `ok` tells whether underlying writes succeed;
`contents` is what has physically reached the sink. -/
structure Sink where
  ok : Bool
  contents : List String
deriving DecidableEq

instance : DecidableEq (Except Unit Unit) := fun a b =>
  match a, b with
  | Except.ok (), Except.ok () => isTrue rfl
  | Except.error (), Except.error () => isTrue rfl
  | Except.ok (), Except.error () => isFalse (by simp)
  | Except.error (), Except.ok () => isFalse (by simp)

/-- One underlying write to the sink. -/
def Sink.write (s : Sink) (d : String) : Except Unit Sink :=
  if s.ok then Except.ok { s with contents := s.contents ++ [d] }
  else Except.error ()

/-- `writeln!` over a plain (unbuffered) sink for each line, with `?`
propagation; returns the result and the sink state reached. -/
def writeLines (s : Sink) : List String → (Except Unit Unit) × Sink
  | [] => (Except.ok (), s)
  | l :: ls =>
      match s.write (l ++ "\n") with
      | Except.ok s2 => writeLines s2 ls
      | Except.error e => (Except.error e, s)

/-- Default capacity of Rust's `BufWriter`. -/
def BUF_CAPACITY : Nat := 8192

/-- A `BufWriter` wrapping a sink: pending buffered bytes plus the sink. -/
structure BufWriter where
  sink : Sink
  buf : String

/-- `BufWriter::flush`: push the pending bytes to the sink. -/
def BufWriter.flush (b : BufWriter) : Except Unit BufWriter :=
  if b.buf.isEmpty then Except.ok b
  else
    match b.sink.write b.buf with
    | Except.ok s2 => Except.ok ⟨s2, ""⟩
    | Except.error e => Except.error e

/-- `BufWriter::write_all`: buffer if it fits, otherwise flush first; a
datum at least as large as the capacity goes straight to the sink. -/
def BufWriter.write (b : BufWriter) (d : String) : Except Unit BufWriter :=
  if b.buf.length + d.length ≤ BUF_CAPACITY then
    Except.ok ⟨b.sink, b.buf ++ d⟩
  else
    match b.flush with
    | Except.error e => Except.error e
    | Except.ok b2 =>
        if d.length ≤ BUF_CAPACITY then Except.ok ⟨b2.sink, d⟩
        else
          match b2.sink.write d with
          | Except.ok s2 => Except.ok ⟨s2, ""⟩
          | Except.error e => Except.error e

/-- Dropping a `BufWriter` (Rust std): attempt a final flush, IGNORE any
error, release the sink. -/
def BufWriter.dropWriter (b : BufWriter) : Sink :=
  match b.flush with
  | Except.ok b2 => b2.sink
  | Except.error _ => b.sink

/-! ## JSONL emitter (`to_jsonl`, src/main.rs:112-125) -/

/-- Modelled from the spec: `serde_json::to_string` (external crate) on an
`OsmObj` — a single-line JSON document carrying the type discriminator,
numeric id, tag mapping, and for relations the member list, for ways the
node-id list. The model fixes one stable field layout. -/
def jsonString (s : String) : String := "\"" ++ s ++ "\""

/-- JSON rendering of a tag map. -/
def jsonTags (t : Tags) : String :=
  "\x7b" ++
    String.intercalate ","
      (List.map (fun p => jsonString p.1 ++ ":" ++ jsonString p.2) t) ++
  "\x7d"

/-- The serde type discriminator of an id. -/
def OsmId.typeStr : OsmId → String
  | .node _ => "node"
  | .way _ => "way"
  | .rel _ => "relation"

/-- JSON rendering of one relation member reference. -/
def jsonRef (r : Ref) : String :=
  "\x7b\"type\":" ++ jsonString r.member.typeStr ++ ",\"id\":" ++
    toString r.member.num ++ ",\"role\":" ++ jsonString r.role ++ "\x7d"

/-- Modelled from the spec: one-line JSON serialization of an object. -/
def jsonEncode : OsmObj → String
  | .node n =>
      "\x7b\"type\":\"node\",\"id\":" ++ toString n.id ++
        ",\"tags\":" ++ jsonTags n.tags ++ "\x7d"
  | .way w =>
      "\x7b\"type\":\"way\",\"id\":" ++ toString w.id ++
        ",\"tags\":" ++ jsonTags w.tags ++ ",\"nodes\":[" ++
        String.intercalate "," (w.nodes.map toString) ++ "]\x7d"
  | .rel r =>
      "\x7b\"type\":\"relation\",\"id\":" ++ toString r.id ++
        ",\"tags\":" ++ jsonTags r.tags ++ ",\"members\":[" ++
        String.intercalate "," (r.refs.map jsonRef) ++ "]\x7d"

/-- The loop body of `to_jsonl`: serialize each object and `writeln!` it to
the buffered writer, `?`-propagating errors; returns the result together
with the writer state at exit. -/
def writeJsonl (b : BufWriter) : List OsmObj → (Except Unit Unit) × BufWriter
  | [] => (Except.ok (), b)
  | o :: rest =>
      match b.write (jsonEncode o ++ "\n") with
      | Except.ok b2 => writeJsonl b2 rest
      | Except.error e => (Except.error e, b)

/-- `to_jsonl` (src/main.rs:112-125): wrap the sink in a `BufWriter`, write
one JSON line per entry satisfying `filter_target_relations`, return. The
source contains NO explicit flush; the writer is dropped on both exit
paths and the drop-time flush ignores errors. Returns (function result,
sink state after the drop). -/
def to_jsonl (relations : List (OsmId × OsmObj)) (out : Sink) :
    (Except Unit Unit) × Sink :=
  let buffer : BufWriter := ⟨out, ""⟩
  let (r, b) :=
    writeJsonl buffer ((relations.map Prod.snd).filter filter_target_relations)
  (r, b.dropWriter)

/-! ## `main` wiring (src/main.rs:57-64) -/

/-- The CLI subcommand. -/
inductive Commands where
  | stats

/-- `main` (src/main.rs:57-64) from the point where the input is decoded:
stats mode loads the closure rooted at `filter_target_relations` and
aggregates it; default mode loads the closure rooted at
`filter_all_relations` and emits JSONL. -/
def runMain (src : List OsmObj) (command : Option Commands) (out : Sink) :
    (Except Unit Unit) × Sink :=
  match command with
  | some Commands.stats =>
      writeLines out (to_stats (load_relations src filter_target_relations))
  | none => to_jsonl (load_relations src filter_all_relations) out

/-! ## Helper lemmas -/

theorem keyLe_trans (a b c : OsmId × OsmObj) (h1 : keyLe a b = true)
    (h2 : keyLe b c = true) : keyLe a c = true :=
  OsmId.leB_trans a.1 b.1 c.1 h1 h2

theorem keyLe_total (a b : OsmId × OsmObj) :
    keyLe a b = true ∨ keyLe b a = true :=
  OsmId.leB_total a.1 b.1

theorem dedupByKeyAux_keys (seen : List OsmId) (l : List (OsmId × OsmObj)) :
    ((dedupByKeyAux seen l).map Prod.fst).Nodup ∧
    ∀ x ∈ (dedupByKeyAux seen l).map Prod.fst, x ∉ seen := by
  induction l generalizing seen with
  | nil => simp [dedupByKeyAux]
  | cons e rest ih =>
      simp only [dedupByKeyAux]
      by_cases h : e.1 ∈ seen
      · simpa [h] using ih seen
      · simp only [h, if_neg, not_false_eq_true, List.map_cons]
        refine ⟨List.nodup_cons.mpr ⟨?_, (ih (e.1 :: seen)).1⟩, ?_⟩
        · intro hmem
          exact (ih (e.1 :: seen)).2 e.1 hmem (List.mem_cons_self _ _)
        · intro x hx
          rcases List.mem_cons.mp hx with hx | hx
          · exact hx ▸ h
          · intro hxs
            exact (ih (e.1 :: seen)).2 x hx (List.mem_cons_of_mem _ hxs)

theorem dedupByKey_keys_nodup (l : List (OsmId × OsmObj)) :
    ((dedupByKey l).map Prod.fst).Nodup :=
  (dedupByKeyAux_keys [] l).1

theorem load_relations_keys_strictSorted (src : List OsmObj)
    (pred : OsmObj → Bool) :
    List.Pairwise (fun a b => OsmId.ltB a.1 b.1 = true)
      (load_relations src pred) := by
  unfold load_relations
  set d := dedupByKey
    ((src.filter (fun o => (closureIds src pred).contains o.id)).map
      (fun o => (o.id, o))) with hd
  have hsorted : List.Pairwise (fun a b => keyLe a b = true) (sortBy keyLe d) :=
    sortBy_pairwise keyLe keyLe_trans keyLe_total d
  have hperm : List.Perm ((sortBy keyLe d).map Prod.fst) (d.map Prod.fst) :=
    (sortBy_perm keyLe d).map Prod.fst
  have hnodup : ((sortBy keyLe d).map Prod.fst).Nodup :=
    hperm.nodup_iff.mpr (dedupByKey_keys_nodup _)
  have hne : List.Pairwise (fun (a b : OsmId × OsmObj) => a.1 ≠ b.1)
      (sortBy keyLe d) := List.pairwise_map.mp hnodup
  exact (hsorted.and hne).imp
    (fun h => OsmId.ltB_of_leB_of_ne _ _ h.1 h.2)

theorem bump_sum (acc : List (String × Nat)) (b : String) :
    ((bump acc b).map Prod.snd).sum = (acc.map Prod.snd).sum + 1 := by
  induction acc with
  | nil => simp [bump]
  | cons e rest ih =>
      by_cases h : e.1 == b
      · cases e; simp_all [bump]; omega
      · cases e; simp_all [bump]; omega

theorem foldl_bump_sum (l : List String) (acc : List (String × Nat)) :
    ((l.foldl bump acc).map Prod.snd).sum = (acc.map Prod.snd).sum + l.length := by
  induction l generalizing acc with
  | nil => simp
  | cons b rest ih =>
      simp only [List.foldl_cons, ih, bump_sum, List.length_cons]
      omega

theorem filterMap_get_length (l : List OsmObj) :
    (l.filterMap (fun obj => Tags.get obj.tags "boundary")).length =
      (l.filter (fun obj => (Tags.get obj.tags "boundary").isSome)).length := by
  induction l with
  | nil => rfl
  | cons o rest ih =>
      cases h : Tags.get o.tags "boundary" <;>
        simp [List.filterMap_cons, List.filter_cons, h, ih]

theorem countGe_trans (a b c : String × Nat) (h1 : countGe a b = true)
    (h2 : countGe b c = true) : countGe a c = true := by
  simp only [countGe, decide_eq_true_eq] at *
  omega

theorem countGe_total (a b : String × Nat) :
    countGe a b = true ∨ countGe b a = true := by
  simp only [countGe, decide_eq_true_eq]
  omega

theorem filter_map_snd (p : OsmObj → Bool) (rs : List (OsmId × OsmObj)) :
    ((rs.filter (fun e => p e.2)).map Prod.snd).filter p =
      ((rs.map Prod.snd).filter p) := by
  induction rs with
  | nil => rfl
  | cons e rest ih =>
      by_cases h : p e.2 <;> simp [List.filter_cons, h, ih]

/-! ## Concrete inputs for the scenario claims -/

/-- The relation of spec scenario 6: tags
`name: "Test", admin_level: "4", boundary: "administrative"`. -/
def relTest : Relation :=
  ⟨1, [("name", "Test"), ("admin_level", "4"), ("boundary", "administrative")],
   []⟩

/-- An unrelated way (not referenced by any relation). -/
def wayUnrelated : Way := ⟨5, [("highway", "residential")], [10, 11]⟩

/-- The scenario-6 input: one matching relation plus one unrelated way. -/
def srcScenario : List OsmObj := [OsmObj.way wayUnrelated, OsmObj.rel relTest]

/-- A sink on which every write succeeds. -/
def goodSink : Sink := ⟨true, []⟩

/-- A sink on which every write fails (for example a closed pipe). -/
def brokenSink : Sink := ⟨false, []⟩

/-- A candidate/target relation referencing a member way id (99) that is
absent from the source. -/
def relDangling : Relation :=
  ⟨1, [("name", "Test"), ("admin_level", "4"), ("boundary", "administrative")],
   [⟨OsmId.way 99, "outer"⟩]⟩

/-- The scenario-8 input: just the relation with a dangling member. -/
def srcDangling : List OsmObj := [OsmObj.rel relDangling]

/-- A candidate relation carrying no "boundary" tag. -/
def relNoBoundary : Relation := ⟨2, [("name", "X"), ("admin_level", "4")], []⟩

/-- A ResultSet holding only a candidate relation without "boundary". -/
def rsNoBoundary : List (OsmId × OsmObj) :=
  [(OsmId.rel 2, OsmObj.rel relNoBoundary)]

/-- A ResultSet holding one target relation. -/
def rsTarget : List (OsmId × OsmObj) := [(OsmId.rel 1, OsmObj.rel relTest)]

/-- A relation whose "name" tag is present but empty. -/
def relEmptyName : Relation := ⟨3, [("name", ""), ("admin_level", "4")], []⟩

/-- The spec's wording of `IsCandidateRelation` (spec section 4.1): a
Relation with a NON-EMPTY "name" tag and an "admin_level" tag in the
allowlist. Stated only for comparison with the source's
`filter_all_relations`. -/
def specIsCandidateRelation (obj : OsmObj) : Bool :=
  obj.is_relation &&
    (match Tags.get obj.tags "name" with
     | none => false
     | some n => !(n == "")) &&
    (match Tags.get obj.tags "admin_level" with
     | none => false
     | some v =>
         v == "2" || v == "4" || v == "6" || v == "7" || v == "8")

/-! ## Claim theorems -/

/-- C1: running `load_relations` twice on the same input with the same
predicate yields identical ResultSets (identical key sets and content —
the embedding is a function of the decoded source, so a second run is the
same term), and the result collection is strictly ordered by `OsmId`
ordering (variant, then integer), independent of discovery order. -/
theorem C1_loadClosure_idempotent_ordered (src : List OsmObj)
    (pred : OsmObj → Bool) :
    load_relations src pred = load_relations src pred ∧
    List.Pairwise (fun a b => OsmId.ltB a.1 b.1 = true)
      (load_relations src pred) :=
  ⟨rfl, load_relations_keys_strictSorted src pred⟩

/-- C2 counterexample: a ResultSet holding exactly one candidate relation
that has no "boundary" tag — `to_stats` drops it (`filter_map`), so the
counts sum to 0 while the ResultSet has 1 candidate relation. -/
theorem C2_sum_counterexample :
    ((statsTally rsNoBoundary).map Prod.snd).sum ≠
      ((rsNoBoundary.map Prod.snd).filter filter_all_relations).length := by
  decide

/-- C2 (amended): the counts produced by `to_stats` sum to the number of
entries satisfying `filter_all_relations` AND carrying a "boundary" tag;
every count is non-negative. -/
theorem C2_sum_amended (relations : List (OsmId × OsmObj)) :
    ((sortBy countGe (statsTally relations)).map Prod.snd).sum =
      ((relations.map Prod.snd).filter
        (fun o => filter_all_relations o &&
          (Tags.get o.tags "boundary").isSome)).length ∧
    ∀ c ∈ (sortBy countGe (statsTally relations)).map Prod.snd, 0 ≤ c := by
  constructor
  · have hperm :=
      (sortBy_perm countGe (statsTally relations)).map (Prod.snd)
    rw [hperm.sum_eq]
    unfold statsTally boundaryValues
    rw [foldl_bump_sum]
    simp only [List.map_nil, List.sum_nil, Nat.zero_add]
    rw [filterMap_get_length, List.filter_filter]
    exact congrArg List.length
      (List.filter_congr (fun x _ => Bool.and_comm _ _))
  · intro c _
    exact Nat.zero_le c

/-- C3 counterexample: a relation whose "name" tag is present but EMPTY is
accepted by the source's `filter_all_relations` (it only checks
`contains_key("name")`), while the claim's predicate (requiring a
non-empty name) rejects it. -/
theorem C3_empty_name_counterexample :
    filter_all_relations (OsmObj.rel relEmptyName) = true ∧
    specIsCandidateRelation (OsmObj.rel relEmptyName) = false := by
  decide

/-- C3 (amended): `filter_all_relations obj` is true iff `obj` is a
Relation, HAS a "name" tag (an empty value is allowed), and has an
"admin_level" tag whose value is one of {"2","4","6","7","8"}. -/
theorem C3_filter_all_relations_spec (obj : OsmObj) :
    filter_all_relations obj = true ↔
      obj.is_relation = true ∧ (Tags.get obj.tags "name").isSome = true ∧
      ∃ v, Tags.get obj.tags "admin_level" = some v ∧
        (v = "2" ∨ v = "4" ∨ v = "6" ∨ v = "7" ∨ v = "8") := by
  unfold filter_all_relations Tags.containsKey
  cases h : Tags.get obj.tags "admin_level" with
  | none => simp [h]
  | some v =>
      simp only [h, Bool.and_eq_true, Bool.or_eq_true, beq_iff_eq,
        Option.some.injEq, exists_eq_left']
      tauto

set_option maxRecDepth 100000 in
/-- C4: evaluation at the failing input — a ResultSet with exactly one
target relation, written to a sink whose writes fail. The line is shorter
than the 8192-byte buffer, so it is only buffered; `to_jsonl` returns
success and the drop-time flush swallows the write error: nothing reaches
the sink and no error is reported, contradicting the claimed guaranteed
flush and error propagation. -/
theorem C4_flush_error_swallowed :
    ((rsTarget.map Prod.snd).filter filter_target_relations).length = 1 ∧
    (jsonEncode (OsmObj.rel relTest) ++ "\n").length ≤ BUF_CAPACITY ∧
    to_jsonl rsTarget brokenSink = (Except.ok (), brokenSink) := by
  decide

/-- C5: `filter_target_relations obj` is true iff `filter_all_relations
obj` is true and `obj` has a "boundary" tag whose value is in
`TARGET_BOUNDARY_TYPES` = {"administrative", "state_border",
"country_border", "state border"}. -/
theorem C5_filter_target_relations_spec (obj : OsmObj) :
    filter_target_relations obj = true ↔
      filter_all_relations obj = true ∧
      ∃ v, Tags.get obj.tags "boundary" = some v ∧
        v ∈ TARGET_BOUNDARY_TYPES := by
  unfold filter_target_relations
  cases h : Tags.get obj.tags "boundary" <;>
    simp [h, TARGET_BOUNDARY_TYPES]

/-- C6: every object accepted by `filter_target_relations` is accepted by
`filter_all_relations` (narrow predicate implies broad predicate). -/
theorem C6_target_implies_candidate (obj : OsmObj)
    (h : filter_target_relations obj = true) :
    filter_all_relations obj = true := by
  unfold filter_target_relations at h
  exact (Bool.and_eq_true _ _).mp h |>.1

/-- C6 witness: the implication applied at a concrete target relation. -/
theorem C6_target_implies_candidate_witness :
    filter_target_relations (OsmObj.rel relTest) = true ∧
    filter_all_relations (OsmObj.rel relTest) = true :=
  ⟨by decide, C6_target_implies_candidate (OsmObj.rel relTest) (by decide)⟩

/-- C7: the (boundary value, count) sequence underlying the lines printed
by `to_stats` is sorted non-increasing by count. -/
theorem C7_to_stats_sorted_desc (relations : List (OsmId × OsmObj)) :
    to_stats relations =
      (sortBy countGe (statsTally relations)).map
        (fun e => e.1 ++ " " ++ toString e.2) ∧
    List.Pairwise (fun a b : String × Nat => b.2 ≤ a.2)
      (sortBy countGe (statsTally relations)) := by
  refine ⟨rfl, ?_⟩
  have h := sortBy_pairwise countGe countGe_trans countGe_total
    (statsTally relations)
  exact h.imp (fun ha => by simpa [countGe] using ha)

set_option maxRecDepth 100000 in
/-- C8: on the input with one relation tagged `name: "Test", admin_level:
"4", boundary: "administrative"` plus one unrelated way, default mode
emits exactly one JSON line (that relation's), and stats mode emits
exactly the single line "administrative 1". -/
theorem C8_single_relation_scenario :
    runMain srcScenario none goodSink =
      (Except.ok (), ⟨true, [jsonEncode (OsmObj.rel relTest) ++ "\n"]⟩) ∧
    runMain srcScenario (some Commands.stats) goodSink =
      (Except.ok (), ⟨true, ["administrative 1" ++ "\n"]⟩) := by
  decide

set_option maxRecDepth 100000 in
/-- C9: a selected relation referencing a member way id (99) absent from
the source — loading succeeds, the ResultSet holds exactly the relation
(so no entry for the dangling id), and `to_jsonl` on that ResultSet does
not fail. -/
theorem C9_dangling_member_scenario :
    load_relations srcDangling filter_all_relations =
      [(OsmId.rel 1, OsmObj.rel relDangling)] ∧
    OsmId.way 99 ∉
      (load_relations srcDangling filter_all_relations).map Prod.fst ∧
    (to_jsonl (load_relations srcDangling filter_all_relations)
      goodSink).1 = Except.ok () := by
  decide

/-- C10: stats mode builds the closure rooted at the NARROW predicate and
default mode at the BROAD predicate, while each consumer then filters with
the opposite predicate: `to_stats` only depends on entries satisfying
`filter_all_relations`, and `to_jsonl` only on entries satisfying
`filter_target_relations`. -/
theorem C10_mode_wiring (src : List OsmObj) (out : Sink) :
    runMain src (some Commands.stats) out =
      writeLines out (to_stats (load_relations src filter_target_relations)) ∧
    runMain src none out =
      to_jsonl (load_relations src filter_all_relations) out ∧
    (∀ rs, to_stats rs =
      to_stats (rs.filter (fun e => filter_all_relations e.2))) ∧
    (∀ rs o, to_jsonl rs o =
      to_jsonl (rs.filter (fun e => filter_target_relations e.2)) o) := by
  refine ⟨rfl, rfl, ?_, ?_⟩
  · intro rs
    unfold to_stats statsTally boundaryValues
    rw [filter_map_snd]
  · intro rs o
    unfold to_jsonl
    rw [filter_map_snd]

end OsmTools
